import Mathlib

/-!
Shallow embedding of the version-reconciliation core of the repository
(`src/ipc/handlers/version_handlers.ts`): the four IPC handlers
`list-versions`, `get-current-branch`, `revert-version` and
`checkout-version`, together with a concrete model of their external
collaborators (project registry, git history store, timeline store).

File contents are byte lists; a working directory, a staging area and a
snapshot tree are association lists from relative path to content.  The
history store's fallible primitives take a `GitFaults` environment that
says which underlying operation throws and with which message, mirroring
the `try`/`catch` structure of the handlers.
-/

set_option maxRecDepth 4000

/-- A row of the `apps` registry table: identifier and on-disk path. -/
structure App where
  id : Nat
  path : String
  deriving Repr, DecidableEq

/-- A commit object: content-addressed identifier, message, author
timestamp, and the full tracked file tree (path to byte content). -/
structure Snapshot where
  oid : String
  message : String
  timestamp : Nat
  files : List (String × List Nat)
  deriving Repr, DecidableEq

/-- A git repository: the commit store (log order, most recent first),
branch refs (name to tip oid), the currently checked-out branch
(`none` when HEAD is detached), the working directory and the stage. -/
structure Repo where
  commits : List Snapshot
  refs : List (String × String)
  branch : Option String
  workdir : List (String × List Nat)
  stage : List (String × List Nat)
  deriving Repr, DecidableEq

/-- A row of the `messages` timeline table: identifier, owning chat
(stream), and the optional commit hash recorded when it was created. -/
structure Msg where
  id : Nat
  chatId : Nat
  commitHash : Option String
  deriving Repr, DecidableEq

/-- The state seen by the handlers: the app registry, the repositories on
disk keyed by app path (`none` when the directory has no `.git`), and the
timeline table. -/
structure AppState where
  apps : List App
  repos : String → Option Repo
  messages : List Msg

/-- Fault injection for the external git collaborator: a `some msg` field
makes the corresponding primitive throw with that message, mirroring the
errors the handlers catch. `readBlobErr` is keyed by file path. -/
structure GitFaults where
  logErr : Option String
  branchErr : Option String
  checkoutErr : Option String
  statusErr : Option String
  readBlobErr : Option (String × String)
  addErr : Option String
  commitErr : Option String
  deriving Repr, DecidableEq

/-- The fault environment in which every git primitive succeeds. -/
def noFaults : GitFaults :=
  ⟨none, none, none, none, none, none, none⟩

/-- The `{ success: true }` object returned by the mutation handlers. -/
structure OpResult where
  success : Bool
  deriving Repr, DecidableEq

/-- The `Version` objects returned by `list-versions`. -/
structure Version where
  oid : String
  message : String
  timestamp : Nat
  deriving Repr, DecidableEq

/-- The structured result of `get-current-branch`:
`{success, data: {branch}} | {success: false, errorMessage}`. -/
inductive BranchResult where
  | success (branch : String)
  | failure (errorMessage : String)
  deriving Repr, DecidableEq

/-- Observable actions performed by the mutation handlers, in order. -/
inductive Event where
  | checkout (ref : String) (force : Bool)
  | status (ref : String)
  | write (path : String) (content : List Nat)
  | unlink (path : String)
  | gitRm (path : String)
  | addAll
  | commitEv (message : String)
  | logPrune (n : Nat)
  deriving Repr, DecidableEq

/-- `db.query.apps.findFirst({where: eq(apps.id, appId)})`. -/
def findApp (st : AppState) (appId : Nat) : Option App :=
  st.apps.find? (fun a => a.id == appId)

/-- Whether the app directory has a history store, and which
(`fs.existsSync(path.join(appPath, ".git"))` plus the store itself). -/
def getRepo (st : AppState) (p : String) : Option Repo :=
  st.repos p

/-- Replace the repository stored at path `p`. -/
def setRepo (st : AppState) (p : String) (r : Repo) : AppState :=
  ⟨st.apps, fun q => if q = p then some r else st.repos q, st.messages⟩

/-- Remove the entry for path `p` from an association list. -/
def removeEntry (l : List (String × List Nat)) (p : String) :
    List (String × List Nat) :=
  l.filter (fun e => !(e.1 == p))

/-- `fsPromises.writeFile`: create or overwrite the file at `p`. -/
def writeFile (l : List (String × List Nat)) (p : String) (c : List Nat) :
    List (String × List Nat) :=
  (p, c) :: removeEntry l p

/-- Resolve a checkout ref: a branch name via `refs`, else a commit oid. -/
def resolveRef (repo : Repo) (ref : String) : Option Snapshot :=
  match repo.refs.lookup ref with
  | some oid => repo.commits.find? (fun c => c.oid == oid)
  | none => repo.commits.find? (fun c => c.oid == ref)

/-- `git.log({depth: 10000})`: the bounded commit enumeration. -/
def gitLog (env : GitFaults) (repo : Repo) : Except String (List Snapshot) :=
  match env.logErr with
  | some m => Except.error m
  | none => Except.ok (repo.commits.take 10000)

/-- `git.currentBranch({fullname: false})`: `none` when HEAD is detached. -/
def gitCurrentBranch (env : GitFaults) (repo : Repo) :
    Except String (Option String) :=
  match env.branchErr with
  | some m => Except.error m
  | none => Except.ok repo.branch

/-- `git.checkout({ref, force: true})`: move working tree and stage to the
resolved snapshot; HEAD becomes the branch when `ref` names one, else
detached. -/
def gitCheckout (env : GitFaults) (repo : Repo) (ref : String) :
    Except String Repo :=
  match env.checkoutErr with
  | some m => Except.error m
  | none =>
    match resolveRef repo ref with
    | none => Except.error ("Could not find " ++ ref)
    | some c =>
      Except.ok
        { repo with
          workdir := c.files
          stage := c.files
          branch := if (repo.refs.lookup ref).isSome then some ref else none }

/-- Working-directory component of a status row: `0` absent, `1` identical
to the target snapshot, `2` different. -/
def wdStatus (target : Option (List Nat)) (wd : Option (List Nat)) : Nat :=
  match wd, target with
  | none, _ => 0
  | some c, some t => if c == t then 1 else 2
  | some _, none => 2

/-- The rows of `git.statusMatrix({ref})`: every path known to the target
snapshot, the working tree or the stage, with its
(head, workdir, stage) statuses against the target. -/
def statusRows (target : Snapshot) (repo : Repo) :
    List (String × Nat × Nat × Nat) :=
  ((target.files.map Prod.fst ++ repo.workdir.map Prod.fst ++
      repo.stage.map Prod.fst).dedup).map
    (fun p =>
      (p, (if (target.files.lookup p).isSome then 1 else 0),
        wdStatus (target.files.lookup p) (repo.workdir.lookup p),
        wdStatus (target.files.lookup p) (repo.stage.lookup p)))

/-- `git.statusMatrix({ref})` with its failure modes. -/
def gitStatusMatrix (env : GitFaults) (repo : Repo) (ref : String) :
    Except String (List (String × Nat × Nat × Nat)) :=
  match env.statusErr with
  | some m => Except.error m
  | none =>
    match repo.commits.find? (fun c => c.oid == ref) with
    | none => Except.error ("Could not find " ++ ref)
    | some t => Except.ok (statusRows t repo)

/-- Fault-free part of `git.readBlob({oid, filepath})`. -/
def gitReadBlobCore (repo : Repo) (ref : String) (fp : String) :
    Except String (List Nat) :=
  match repo.commits.find? (fun c => c.oid == ref) with
  | none => Except.error ("Could not find " ++ ref)
  | some t =>
    match t.files.lookup fp with
    | some b => Except.ok b
    | none => Except.error ("Could not find file " ++ fp)

/-- `git.readBlob({oid, filepath})`. -/
def gitReadBlob (env : GitFaults) (repo : Repo) (ref : String)
    (fp : String) : Except String (List Nat) :=
  match env.readBlobErr with
  | some pe =>
    if pe.1 == fp then Except.error pe.2 else gitReadBlobCore repo ref fp
  | none => gitReadBlobCore repo ref fp

/-- `git.add({filepath: "."})`: stage the entire working tree. -/
def gitAdd (env : GitFaults) (repo : Repo) : Except String Repo :=
  match env.addErr with
  | some m => Except.error m
  | none => Except.ok { repo with stage := repo.workdir }

/-- Identifier of the commit a `git.commit` call would create. -/
def newOid (repo : Repo) : String :=
  "revert-" ++ toString repo.commits.length

/-- `git.commit({message, author})`: snapshot the stage as a new commit on
the current branch. -/
def gitCommit (env : GitFaults) (repo : Repo) (msg : String) :
    Except String Repo :=
  match env.commitErr with
  | some m => Except.error m
  | none =>
    let c : Snapshot := ⟨newOid repo, msg, 0, repo.stage⟩
    Except.ok
      { repo with
        commits := c :: repo.commits
        refs :=
          match repo.branch with
          | some b => (b, c.oid) :: (repo.refs.filter (fun e => !(e.1 == b)))
          | none => repo.refs }

/-- The `list-versions` handler: raises (`Except.error`) on an unknown app
or a failing history read, returns `[]` when the directory has no `.git`,
and otherwise maps the bounded log to `Version` values. -/
def listVersions (env : GitFaults) (st : AppState) (appId : Nat) :
    Except String (List Version) :=
  match findApp st appId with
  | none => Except.error "App not found"
  | some app =>
    match getRepo st app.path with
    | none => Except.ok []
    | some repo =>
      match gitLog env repo with
      | Except.error m => Except.error ("Failed to list versions: " ++ m)
      | Except.ok cs => Except.ok (cs.map (fun c => ⟨c.oid, c.message, c.timestamp⟩))

/-- The `get-current-branch` handler: a total function into the structured
`BranchResult`; every underlying failure is caught and returned as a
value, and a missing branch name is replaced by the sentinel
`"<no-branch>"` (JavaScript `currentBranch || "<no-branch>"`). -/
def getCurrentBranch (env : GitFaults) (st : AppState) (appId : Nat) :
    BranchResult :=
  match findApp st appId with
  | none => BranchResult.failure "App not found"
  | some app =>
    match getRepo st app.path with
    | none => BranchResult.failure "Not a git repository"
    | some repo =>
      match gitCurrentBranch env repo with
      | Except.error m =>
        BranchResult.failure ("Failed to get current branch: " ++ m)
      | Except.ok b =>
        BranchResult.success
          (match b with
           | none => "<no-branch>"
           | some s => if s == "" then "<no-branch>" else s)

/-- The `checkout-version` handler body: force-checkout the target commit,
touching nothing but the repository's working tree, stage and HEAD. -/
def checkoutVersion (env : GitFaults) (st : AppState) (appId : Nat)
    (versionId : String) : Except String OpResult × AppState × List Event :=
  match findApp st appId with
  | none => (Except.error "App not found", st, [])
  | some app =>
    match getRepo st app.path with
    | none =>
      (Except.error ("Failed to checkout version: " ++ "Not a git repository"),
        st, [])
    | some repo =>
      match gitCheckout env repo versionId with
      | Except.error m =>
        (Except.error ("Failed to checkout version: " ++ m), st,
          [Event.checkout versionId true])
      | Except.ok r =>
        (Except.ok ⟨true⟩, setRepo st app.path r,
          [Event.checkout versionId true])

/-- One iteration of the reconciliation loop of `revert-version`: restore
a path present in the target whose working copy is not unmodified, or
delete (and unstage) a path absent from the target but present on disk. -/
def revertRow (env : GitFaults) (repo : Repo) (ref : String)
    (row : String × Nat × Nat × Nat) : Except String (Repo × List Event) :=
  if row.2.1 == 1 then
    if !(row.2.2.1 == 1) then
      match gitReadBlob env repo ref row.1 with
      | Except.error m => Except.error m
      | Except.ok blob =>
        Except.ok ({ repo with workdir := writeFile repo.workdir row.1 blob },
          [Event.write row.1 blob])
    else Except.ok (repo, [])
  else
    if row.2.1 == 0 && !(row.2.2.1 == 0) then
      if (repo.workdir.lookup row.1).isSome then
        Except.ok
          ({ repo with
              workdir := removeEntry repo.workdir row.1
              stage := removeEntry repo.stage row.1 },
            [Event.unlink row.1, Event.gitRm row.1])
      else Except.ok (repo, [])
    else Except.ok (repo, [])

/-- The whole reconciliation loop.  On a failing row the loop stops and
returns the mutations already performed (no rollback). -/
def revertRows (env : GitFaults) (ref : String) :
    Repo → List (String × Nat × Nat × Nat) →
      Option String × Repo × List Event
  | repo, [] => (none, repo, [])
  | repo, row :: rest =>
    match revertRow env repo ref row with
    | Except.error m => (some m, repo, [])
    | Except.ok (r₂, evs) =>
      match revertRows env ref r₂ rest with
      | (res, r₃, evs₂) => (res, r₃, evs ++ evs₂)

/-- The timeline-pruning tail of `revert-version`: find the first message
whose `commitHash` is the target oid; when found, log the number of later
messages in the same chat and delete them. -/
def pruneMessages (st : AppState) (pid : String) : AppState × List Event :=
  match st.messages.find? (fun m => m.commitHash == some pid) with
  | none => (st, [])
  | some m₀ =>
    let toDelete := st.messages.filter
      (fun m => m.chatId == m₀.chatId && m₀.id < m.id)
    let st₂ :=
      if toDelete.length > 0 then
        (⟨st.apps, st.repos,
          st.messages.filter
            (fun m => !(m.chatId == m₀.chatId && m₀.id < m.id))⟩ : AppState)
      else st
    (st₂, [Event.logPrune toDelete.length])

/-- The commit message synthesized by `revert-version`. -/
def revertMessage (pid : String) : String :=
  "Reverted all changes back to version " ++ pid

/-- The `revert-version` handler body: force-checkout `main`, diff the
target against the working tree, reconcile each row, stage everything,
commit, then prune the timeline.  Any caught failure is rethrown as
`"Failed to revert version: " ++ cause`, and the state keeps every
mutation already performed. -/
def revertVersion (env : GitFaults) (st : AppState) (appId : Nat)
    (pid : String) : Except String OpResult × AppState × List Event :=
  match findApp st appId with
  | none => (Except.error "App not found", st, [])
  | some app =>
    match getRepo st app.path with
    | none =>
      (Except.error ("Failed to revert version: " ++ "Not a git repository"),
        st, [])
    | some repo =>
      match gitCheckout env repo "main" with
      | Except.error m =>
        (Except.error ("Failed to revert version: " ++ m), st,
          [Event.checkout "main" true])
      | Except.ok repo₁ =>
        match gitStatusMatrix env repo₁ pid with
        | Except.error m =>
          (Except.error ("Failed to revert version: " ++ m),
            setRepo st app.path repo₁,
            [Event.checkout "main" true, Event.status pid])
        | Except.ok rows =>
          match revertRows env pid repo₁ rows with
          | (some m, repo₂, evs) =>
            (Except.error ("Failed to revert version: " ++ m),
              setRepo st app.path repo₂,
              Event.checkout "main" true :: Event.status pid :: evs)
          | (none, repo₂, evs) =>
            match gitAdd env repo₂ with
            | Except.error m =>
              (Except.error ("Failed to revert version: " ++ m),
                setRepo st app.path repo₂,
                Event.checkout "main" true :: Event.status pid :: evs)
            | Except.ok repo₃ =>
              match gitCommit env repo₃ (revertMessage pid) with
              | Except.error m =>
                (Except.error ("Failed to revert version: " ++ m),
                  setRepo st app.path repo₃,
                  Event.checkout "main" true :: Event.status pid ::
                    evs ++ [Event.addAll])
              | Except.ok repo₄ =>
                match pruneMessages (setRepo st app.path repo₄) pid with
                | (st₂, prEvs) =>
                  (Except.ok ⟨true⟩, st₂,
                    Event.checkout "main" true :: Event.status pid ::
                      evs ++ [Event.addAll, Event.commitEv (revertMessage pid)]
                      ++ prEvs)

theorem lookup_removeEntry_self (l : List (String × List Nat)) (p : String) :
    (removeEntry l p).lookup p = none := by
  induction l with
  | nil => rfl
  | cons e t ih =>
    obtain ⟨k, v⟩ := e
    rw [removeEntry, List.filter_cons]
    by_cases h : k = p
    · simp only [h, beq_self_eq_true, Bool.not_true, Bool.false_eq_true,
        if_false]
      exact ih
    · simp only [beq_eq_false_iff_ne.mpr h, Bool.not_false, if_true,
        List.lookup, beq_eq_false_iff_ne.mpr (Ne.symm h)]
      exact ih

theorem lookup_removeEntry_ne (l : List (String × List Nat)) (p q : String)
    (h : q ≠ p) : (removeEntry l p).lookup q = l.lookup q := by
  induction l with
  | nil => rfl
  | cons e t ih =>
    obtain ⟨k, v⟩ := e
    rw [removeEntry, List.filter_cons]
    by_cases he : k = p
    · simp only [he, beq_self_eq_true, Bool.not_true, Bool.false_eq_true,
        if_false, List.lookup, beq_eq_false_iff_ne.mpr h]
      exact ih
    · by_cases hq : q = k
      · simp [List.lookup, beq_eq_false_iff_ne.mpr he, hq]
      · simp only [beq_eq_false_iff_ne.mpr he, Bool.not_false, if_true,
          List.lookup, beq_eq_false_iff_ne.mpr hq]
        exact ih

theorem lookup_writeFile_self (l : List (String × List Nat)) (p : String)
    (c : List Nat) : (writeFile l p c).lookup p = some c := by
  simp [writeFile, List.lookup]

theorem lookup_writeFile_ne (l : List (String × List Nat)) (p q : String)
    (c : List Nat) (h : q ≠ p) :
    (writeFile l p c).lookup q = l.lookup q := by
  rw [writeFile, List.lookup_cons]
  simp only [beq_eq_false_iff_ne.mpr h]
  exact lookup_removeEntry_ne l p q h

theorem gitCheckout_ok (env : GitFaults) (repo : Repo) (ref : String)
    (r : Repo) (h : gitCheckout env repo ref = Except.ok r) :
    r.commits = repo.commits ∧ r.refs = repo.refs ∧
      (∃ c, resolveRef repo ref = some c ∧ r.workdir = c.files ∧
        r.stage = c.files) ∧
      ((repo.refs.lookup ref).isSome → r.branch = some ref) := by
  unfold gitCheckout at h
  split at h
  · exact absurd h (by simp)
  · split at h
    · exact absurd h (by simp)
    · rename_i c hc
      simp only [Except.ok.injEq] at h
      subst h
      refine ⟨rfl, rfl, ⟨c, hc, rfl, rfl⟩, ?_⟩
      intro hs
      simp [hs]

theorem gitAdd_ok (env : GitFaults) (repo : Repo) (r : Repo)
    (h : gitAdd env repo = Except.ok r) :
    r = { repo with stage := repo.workdir } := by
  unfold gitAdd at h
  split at h
  · exact absurd h (by simp)
  · simp only [Except.ok.injEq] at h
    exact h.symm

theorem gitCommit_ok (env : GitFaults) (repo : Repo) (msg : String)
    (r : Repo) (h : gitCommit env repo msg = Except.ok r) :
    ∃ c : Snapshot, c.oid = newOid repo ∧ c.files = repo.stage ∧
      r.commits = c :: repo.commits ∧ r.workdir = repo.workdir ∧
      r.stage = repo.stage ∧ r.branch = repo.branch ∧
      (∀ b, repo.branch = some b →
        r.refs = (b, c.oid) :: (repo.refs.filter (fun e => !(e.1 == b)))) := by
  unfold gitCommit at h
  split at h
  · exact absurd h (by simp)
  · simp only [Except.ok.injEq] at h
    subst h
    refine ⟨⟨newOid repo, msg, 0, repo.stage⟩, rfl, rfl, rfl, rfl, rfl, rfl, ?_⟩
    intro b hb
    simp [hb]

theorem revertRow_ok_frame (env : GitFaults) (repo : Repo) (ref : String)
    (row : String × Nat × Nat × Nat) (r₂ : Repo) (evs : List Event)
    (h : revertRow env repo ref row = Except.ok (r₂, evs)) :
    r₂.commits = repo.commits ∧ r₂.refs = repo.refs ∧
      r₂.branch = repo.branch ∧
      ∀ q, q ≠ row.1 → r₂.workdir.lookup q = repo.workdir.lookup q ∧
        r₂.stage.lookup q = repo.stage.lookup q := by
  unfold revertRow at h
  split at h
  · split at h
    · split at h
      · exact absurd h (by simp)
      · simp only [Except.ok.injEq, Prod.mk.injEq] at h
        obtain ⟨h1, -⟩ := h
        subst h1
        refine ⟨rfl, rfl, rfl, ?_⟩
        intro q hq
        exact ⟨lookup_writeFile_ne _ _ _ _ hq, rfl⟩
    · simp only [Except.ok.injEq, Prod.mk.injEq] at h
      obtain ⟨h1, -⟩ := h
      subst h1
      exact ⟨rfl, rfl, rfl, fun q _ => ⟨rfl, rfl⟩⟩
  · split at h
    · split at h
      · simp only [Except.ok.injEq, Prod.mk.injEq] at h
        obtain ⟨h1, -⟩ := h
        subst h1
        refine ⟨rfl, rfl, rfl, ?_⟩
        intro q hq
        exact ⟨lookup_removeEntry_ne _ _ _ hq, lookup_removeEntry_ne _ _ _ hq⟩
      · simp only [Except.ok.injEq, Prod.mk.injEq] at h
        obtain ⟨h1, -⟩ := h
        subst h1
        exact ⟨rfl, rfl, rfl, fun q _ => ⟨rfl, rfl⟩⟩
    · simp only [Except.ok.injEq, Prod.mk.injEq] at h
      obtain ⟨h1, -⟩ := h
      subst h1
      exact ⟨rfl, rfl, rfl, fun q _ => ⟨rfl, rfl⟩⟩

theorem revertRow_restore (env : GitFaults) (repo : Repo) (ref : String)
    (row : String × Nat × Nat × Nat) (r₂ : Repo) (evs : List Event)
    (target : Snapshot) (b : List Nat)
    (hh : row.2.1 = 1) (hw : row.2.2.1 ≠ 1)
    (hfind : repo.commits.find? (fun c => c.oid == ref) = some target)
    (hb : target.files.lookup row.1 = some b)
    (h : revertRow env repo ref row = Except.ok (r₂, evs)) :
    r₂.workdir.lookup row.1 = some b ∧ r₂.stage = repo.stage := by
  unfold revertRow at h
  rw [hh] at h
  simp only [beq_self_eq_true, if_true, beq_eq_false_iff_ne.mpr hw,
    Bool.not_false, if_true] at h
  unfold gitReadBlob at h
  rcases henv : env.readBlobErr with - | pe
  · rw [henv] at h
    simp only [gitReadBlobCore, hfind, hb] at h
    simp only [Except.ok.injEq, Prod.mk.injEq] at h
    obtain ⟨h1, -⟩ := h
    subst h1
    exact ⟨lookup_writeFile_self _ _ _, rfl⟩
  · rw [henv] at h
    by_cases hfp : pe.1 = row.1
    · simp only [beq_iff_eq, hfp, if_true] at h
      exact absurd h (by simp)
    · simp only [beq_eq_false_iff_ne.mpr hfp, Bool.false_eq_true, if_false,
        gitReadBlobCore, hfind, hb] at h
      simp only [Except.ok.injEq, Prod.mk.injEq] at h
      obtain ⟨h1, -⟩ := h
      subst h1
      exact ⟨lookup_writeFile_self _ _ _, rfl⟩

theorem revertRow_delete (env : GitFaults) (repo : Repo) (ref : String)
    (row : String × Nat × Nat × Nat) (r₂ : Repo) (evs : List Event)
    (hh : row.2.1 = 0) (hw : row.2.2.1 ≠ 0)
    (hpres : (repo.workdir.lookup row.1).isSome)
    (h : revertRow env repo ref row = Except.ok (r₂, evs)) :
    r₂.workdir.lookup row.1 = none ∧ r₂.stage.lookup row.1 = none := by
  unfold revertRow at h
  rw [hh] at h
  simp only [Nat.reduceBEq, Bool.false_eq_true, if_false, beq_self_eq_true,
    beq_eq_false_iff_ne.mpr hw, Bool.not_false, Bool.true_and, if_true,
    hpres] at h
  simp only [Except.ok.injEq, Prod.mk.injEq] at h
  obtain ⟨h1, -⟩ := h
  subst h1
  exact ⟨lookup_removeEntry_self _ _, lookup_removeEntry_self _ _⟩

theorem revertRows_ok_spec (env : GitFaults) (ref : String) :
    ∀ (rows : List (String × Nat × Nat × Nat)) (repo repo₂ : Repo)
      (evs : List Event),
    (rows.map Prod.fst).Nodup →
    revertRows env ref repo rows = (none, repo₂, evs) →
    repo₂.commits = repo.commits ∧ repo₂.refs = repo.refs ∧
      repo₂.branch = repo.branch ∧
      (∀ q, q ∉ rows.map Prod.fst →
        repo₂.workdir.lookup q = repo.workdir.lookup q ∧
        repo₂.stage.lookup q = repo.stage.lookup q) ∧
      (∀ row ∈ rows,
        (∀ target b, row.2.1 = 1 → row.2.2.1 ≠ 1 →
          repo.commits.find? (fun c => c.oid == ref) = some target →
          target.files.lookup row.1 = some b →
          repo₂.workdir.lookup row.1 = some b) ∧
        (row.2.1 = 0 → row.2.2.1 ≠ 0 →
          (repo.workdir.lookup row.1).isSome →
          repo₂.workdir.lookup row.1 = none ∧
            repo₂.stage.lookup row.1 = none)) := by
  intro rows
  induction rows with
  | nil =>
    intro repo repo₂ evs hnd h
    unfold revertRows at h
    simp only [Prod.mk.injEq] at h
    obtain ⟨-, h2, -⟩ := h
    subst h2
    exact ⟨rfl, rfl, rfl, fun q _ => ⟨rfl, rfl⟩, fun row hr => absurd hr (by simp)⟩
  | cons row rest ih =>
    intro repo repo₂ evs hnd h
    simp only [List.map_cons, List.nodup_cons] at hnd
    obtain ⟨hhead, htail⟩ := hnd
    unfold revertRows at h
    cases hrr : revertRow env repo ref row with
    | error m =>
      rw [hrr] at h
      simp at h
    | ok pr =>
      obtain ⟨r₂, evs₁⟩ := pr
      rw [hrr] at h
      dsimp only at h
      rcases hrest : revertRows env ref r₂ rest with ⟨res3, r3, evs3⟩
      rw [hrest] at h
      simp only [Prod.mk.injEq] at h
      obtain ⟨h1, h2, -⟩ := h
      subst h1
      subst h2
      obtain ⟨ihc, ihr, ihb, ihframe, iheff⟩ := ih r₂ _ evs3 htail hrest
      obtain ⟨fc, fr, fb, fframe⟩ :=
        revertRow_ok_frame env repo ref row r₂ evs₁ hrr
      refine ⟨ihc.trans fc, ihr.trans fr, ihb.trans fb, ?_, ?_⟩
      · intro q hq
        simp only [List.map_cons, List.mem_cons, not_or] at hq
        obtain ⟨hq1, hq2⟩ := hq
        obtain ⟨w1, s1⟩ := ihframe q hq2
        obtain ⟨w2, s2⟩ := fframe q hq1
        exact ⟨w1.trans w2, s1.trans s2⟩
      · intro m hm
        rcases List.mem_cons.mp hm with hm | hm
        · subst hm
          constructor
          · intro target b hh hw hfind hb
            have he := (revertRow_restore env repo ref m r₂ evs₁ target b
              hh hw hfind hb hrr).1
            obtain ⟨w1, -⟩ := ihframe m.1 hhead
            exact w1.trans he
          · intro hh hw hpres
            obtain ⟨d1, d2⟩ := revertRow_delete env repo ref m r₂ evs₁
              hh hw hpres hrr
            obtain ⟨w1, s1⟩ := ihframe m.1 hhead
            exact ⟨w1.trans d1, s1.trans d2⟩
        · have hne : m.1 ≠ row.1 := by
            intro he
            exact hhead (he ▸ List.mem_map_of_mem Prod.fst hm)
          obtain ⟨w2, s2⟩ := fframe m.1 hne
          obtain ⟨eff1, eff2⟩ := iheff m hm
          constructor
          · intro target b hh hw hfind hb
            refine eff1 target b hh hw ?_ hb
            rw [fc, hfind]
          · intro hh hw hpres
            refine eff2 hh hw ?_
            rw [w2, hpres]

theorem statusRows_fst_nodup (target : Snapshot) (repo : Repo) :
    ((statusRows target repo).map Prod.fst).Nodup := by
  unfold statusRows
  rw [List.map_map]
  have h : (Prod.fst ∘ fun p => ((p : String),
      (if (target.files.lookup p).isSome then 1 else 0),
      wdStatus (target.files.lookup p) (repo.workdir.lookup p),
      wdStatus (target.files.lookup p) (repo.stage.lookup p))) = id := rfl
  rw [h, List.map_id]
  exact List.nodup_dedup _

theorem statusRows_mem (target : Snapshot) (repo : Repo)
    (row : String × Nat × Nat × Nat) (h : row ∈ statusRows target repo) :
    row.2.1 = (if (target.files.lookup row.1).isSome then 1 else 0) ∧
    row.2.2.1 = wdStatus (target.files.lookup row.1)
      (repo.workdir.lookup row.1) := by
  unfold statusRows at h
  rw [List.mem_map] at h
  obtain ⟨p, -, hrow⟩ := h
  subst hrow
  exact ⟨rfl, rfl⟩

theorem wdStatus_ne_zero_isSome (t w : Option (List Nat))
    (h : wdStatus t w ≠ 0) : w.isSome := by
  cases w with
  | none => exact absurd rfl (by cases t <;> exact h)
  | some c => rfl

theorem head_status_one_isSome (t : Option (List Nat))
    (h : (if t.isSome then (1 : Nat) else 0) = 1) : t.isSome := by
  cases ht : t.isSome with
  | true => rfl
  | false => rw [ht] at h; exact absurd h (by simp)

theorem find?_eq_of_unique (l : List Msg) (p : Msg → Bool) (m₀ : Msg)
    (hmem : m₀ ∈ l) (hp : p m₀ = true)
    (huniq : ∀ m ∈ l, p m = true → m = m₀) : l.find? p = some m₀ := by
  induction l with
  | nil => exact absurd hmem (by simp)
  | cons a t ih =>
    by_cases ha : p a = true
    · rw [List.find?_cons_of_pos _ ha]
      exact congrArg some (huniq a (by simp) ha)
    · rw [List.find?_cons_of_neg _ (by simp [ha])]
      rcases List.mem_cons.mp hmem with h | h
      · exact absurd (h ▸ hp) ha
      · exact ih h (fun m hm hpm => huniq m (List.mem_cons_of_mem a hm) hpm)

theorem pruneMessages_found (st : AppState) (pid : String) (m₀ : Msg)
    (hmem : m₀ ∈ st.messages) (href : m₀.commitHash = some pid)
    (huniq : ∀ m ∈ st.messages, m.commitHash = some pid → m = m₀) :
    (pruneMessages st pid).1.apps = st.apps ∧
    (pruneMessages st pid).1.repos = st.repos ∧
    (pruneMessages st pid).1.messages =
      st.messages.filter (fun m => !(m.chatId == m₀.chatId && m₀.id < m.id)) ∧
    (pruneMessages st pid).2 = [Event.logPrune
      (st.messages.filter
        (fun m => m.chatId == m₀.chatId && m₀.id < m.id)).length] := by
  have hfind : st.messages.find? (fun m => m.commitHash == some pid)
      = some m₀ :=
    find?_eq_of_unique _ _ _ hmem (by simp [href])
      (fun m hm hpm => huniq m hm (by simpa using hpm))
  unfold pruneMessages
  rw [hfind]
  dsimp only
  split
  · exact ⟨rfl, rfl, rfl, rfl⟩
  · rename_i hlen
    refine ⟨rfl, rfl, ?_, rfl⟩
    have h0 : st.messages.filter
        (fun m => m.chatId == m₀.chatId && m₀.id < m.id) = [] := by
      rcases hx : st.messages.filter
          (fun m => m.chatId == m₀.chatId && m₀.id < m.id) with - | ⟨a, t⟩
      · exact hx
      · rw [hx] at hlen
        exact absurd (by simp) hlen
    have hall := List.filter_eq_nil_iff.mp h0
    symm
    rw [List.filter_eq_self]
    intro a ha
    have hh := hall a ha
    simp only [Bool.and_eq_true, beq_iff_eq, decide_eq_true_eq, not_and,
      not_lt] at hh
    by_cases hc : a.chatId = m₀.chatId
    · have hlt : ¬ (m₀.id < a.id) := not_lt.mpr (hh hc)
      simp [hc, hlt]
    · simp [hc]

theorem pruneMessages_none (st : AppState) (pid : String)
    (h : ∀ m ∈ st.messages, m.commitHash ≠ some pid) :
    pruneMessages st pid = (st, []) := by
  have hfind : st.messages.find? (fun m => m.commitHash == some pid)
      = none := by
    rw [List.find?_eq_none]
    intro m hm
    simp [h m hm]
  unfold pruneMessages
  rw [hfind]

theorem pruneMessages_frame (st : AppState) (pid : String) :
    (pruneMessages st pid).1.apps = st.apps ∧
    (pruneMessages st pid).1.repos = st.repos := by
  unfold pruneMessages
  split
  · exact ⟨rfl, rfl⟩
  · dsimp only
    split
    · exact ⟨rfl, rfl⟩
    · exact ⟨rfl, rfl⟩

theorem getRepo_setRepo_self (st : AppState) (p : String) (r : Repo) :
    getRepo (setRepo st p r) p = some r := by
  simp [getRepo, setRepo]

theorem setRepo_messages (st : AppState) (p : String) (r : Repo) :
    (setRepo st p r).messages = st.messages := rfl

theorem revert_ok_inv (env : GitFaults) (st : AppState) (appId : Nat)
    (pid : String) (r : OpResult) (st' : AppState) (tr : List Event)
    (h : revertVersion env st appId pid = (Except.ok r, st', tr)) :
    ∃ app repo repo₁ rows repo₂ evs repo₃ repo₄,
      findApp st appId = some app ∧
      getRepo st app.path = some repo ∧
      gitCheckout env repo "main" = Except.ok repo₁ ∧
      gitStatusMatrix env repo₁ pid = Except.ok rows ∧
      revertRows env pid repo₁ rows = (none, repo₂, evs) ∧
      gitAdd env repo₂ = Except.ok repo₃ ∧
      gitCommit env repo₃ (revertMessage pid) = Except.ok repo₄ ∧
      r = ⟨true⟩ ∧
      st' = (pruneMessages (setRepo st app.path repo₄) pid).1 ∧
      tr = Event.checkout "main" true :: Event.status pid ::
        evs ++ [Event.addAll, Event.commitEv (revertMessage pid)] ++
        (pruneMessages (setRepo st app.path repo₄) pid).2 := by
  unfold revertVersion at h
  cases happ : findApp st appId with
  | none => rw [happ] at h; simp at h
  | some app =>
  rw [happ] at h
  dsimp only at h
  cases hrepo : getRepo st app.path with
  | none => rw [hrepo] at h; simp at h
  | some repo =>
  rw [hrepo] at h
  dsimp only at h
  cases hchk : gitCheckout env repo "main" with
  | error m => rw [hchk] at h; simp at h
  | ok repo₁ =>
  rw [hchk] at h
  dsimp only at h
  cases hsm : gitStatusMatrix env repo₁ pid with
  | error m => rw [hsm] at h; simp at h
  | ok rows =>
  rw [hsm] at h
  dsimp only at h
  rcases hrows : revertRows env pid repo₁ rows with ⟨res, repo₂, evs⟩
  rw [hrows] at h
  cases res with
  | some m => simp at h
  | none =>
  dsimp only at h
  cases hadd : gitAdd env repo₂ with
  | error m => rw [hadd] at h; simp at h
  | ok repo₃ =>
  rw [hadd] at h
  dsimp only at h
  cases hcom : gitCommit env repo₃ (revertMessage pid) with
  | error m => rw [hcom] at h; simp at h
  | ok repo₄ =>
  rw [hcom] at h
  dsimp only at h
  rcases hpr : pruneMessages (setRepo st app.path repo₄) pid with ⟨st₂, prEvs⟩
  rw [hpr] at h
  dsimp only at h
  simp only [Prod.mk.injEq, Except.ok.injEq] at h
  obtain ⟨h1, h2, h3⟩ := h
  refine ⟨app, repo, repo₁, rows, repo₂, evs, repo₃, repo₄,
    rfl, hrepo, hchk, hsm, hrows, hadd, hcom, h1.symm, ?_, ?_⟩
  · rw [← h2, hpr]
  · rw [← h3, hpr]

theorem gitStatusMatrix_ok (env : GitFaults) (repo : Repo) (ref : String)
    (rows : List (String × Nat × Nat × Nat))
    (h : gitStatusMatrix env repo ref = Except.ok rows) :
    ∃ t, repo.commits.find? (fun c => c.oid == ref) = some t ∧
      rows = statusRows t repo := by
  unfold gitStatusMatrix at h
  split at h
  · simp at h
  · split at h
    · simp at h
    · rename_i t ht
      simp only [Except.ok.injEq] at h
      exact ⟨t, ht, h.symm⟩

/-- C1: during a successful revert, every path reported by the status
comparison between the target snapshot and the working directory is
reconciled as the handler's loop dictates: a path present in the target
whose working-tree status is not unmodified ends up holding exactly the
byte content of the target snapshot's blob, and a path absent from the
target but present in the working tree ends up deleted from disk and
removed from the stage. -/
theorem revert_reconciles_workdir (env : GitFaults) (st : AppState)
    (appId : Nat) (pid : String) (app : App) (repo repo₁ : Repo)
    (target : Snapshot) (r : OpResult) (st' : AppState) (tr : List Event)
    (hApp : findApp st appId = some app)
    (hRepo : getRepo st app.path = some repo)
    (hChk : gitCheckout env repo "main" = Except.ok repo₁)
    (hTarget : repo₁.commits.find? (fun c => c.oid == pid) = some target)
    (hRun : revertVersion env st appId pid = (Except.ok r, st', tr)) :
    ∃ repoF, getRepo st' app.path = some repoF ∧
      ∀ row ∈ statusRows target repo₁,
        (row.2.1 = 1 → row.2.2.1 ≠ 1 →
          repoF.workdir.lookup row.1 = target.files.lookup row.1) ∧
        (row.2.1 = 0 → row.2.2.1 ≠ 0 →
          repoF.workdir.lookup row.1 = none ∧
            repoF.stage.lookup row.1 = none) := by
  obtain ⟨app', repo', repo₁', rows, repo₂, evs, repo₃, repo₄, happ, hrepo,
    hchk, hsm, hrows, hadd, hcom, -, hst, -⟩ :=
    revert_ok_inv env st appId pid r st' tr hRun
  have ha : app = app' := Option.some.inj (hApp.symm.trans happ)
  subst ha
  have hr : repo = repo' := Option.some.inj (hRepo.symm.trans hrepo)
  subst hr
  have h1 : repo₁ = repo₁' := Except.ok.inj (hChk.symm.trans hchk)
  subst h1
  obtain ⟨t, ht, hrowseq⟩ := gitStatusMatrix_ok env repo₁ pid rows hsm
  have htt : t = target := Option.some.inj (ht.symm.trans hTarget)
  subst htt
  subst hrowseq
  obtain ⟨-, -, -, -, seff⟩ :=
    revertRows_ok_spec env pid (statusRows t repo₁) repo₁ repo₂ evs
      (statusRows_fst_nodup t repo₁) hrows
  have hadd' := gitAdd_ok env repo₂ repo₃ hadd
  subst hadd'
  obtain ⟨c, -, -, -, hcw, hcs, -, -⟩ :=
    gitCommit_ok env _ (revertMessage pid) repo₄ hcom
  refine ⟨repo₄, ?_, ?_⟩
  · subst hst
    show (pruneMessages (setRepo st app.path repo₄) pid).1.repos app.path
      = some repo₄
    rw [(pruneMessages_frame (setRepo st app.path repo₄) pid).2]
    exact getRepo_setRepo_self st app.path repo₄
  · intro row hrow
    obtain ⟨hrowh, hroww⟩ := statusRows_mem t repo₁ row hrow
    obtain ⟨eff1, eff2⟩ := seff row hrow
    constructor
    · intro hh hw
      have hsome : (t.files.lookup row.1).isSome :=
        head_status_one_isSome _ (by rw [← hrowh]; exact hh)
      obtain ⟨b, hb⟩ := Option.isSome_iff_exists.mp hsome
      rw [hcw, hb]
      exact eff1 t b hh hw ht hb
    · intro hh hw
      have hpres : (repo₁.workdir.lookup row.1).isSome :=
        wdStatus_ne_zero_isSome _ _ (by rw [← hroww]; exact hw)
      obtain ⟨d1, d2⟩ := eff2 hh hw hpres
      constructor
      · rw [hcw]
        exact d1
      · rw [hcs]
        show repo₂.workdir.lookup row.1 = none
        exact d1

/-- C2: after a successful revert targeting snapshot `pid`, when at most
one timeline entry references `pid`, the deleted entries are exactly
those in the same chat with a strictly greater identifier; the
referencing entry itself and every entry not after it remain; and when
no entry references `pid`, no timeline entry is deleted. -/
theorem revert_prunes_timeline (env : GitFaults) (st : AppState)
    (appId : Nat) (pid : String) (r : OpResult) (st' : AppState)
    (tr : List Event)
    (hRun : revertVersion env st appId pid = (Except.ok r, st', tr)) :
    (∀ m₀, m₀ ∈ st.messages → m₀.commitHash = some pid →
      (∀ m ∈ st.messages, m.commitHash = some pid → m = m₀) →
      st'.messages = st.messages.filter
        (fun m => !(m.chatId == m₀.chatId && m₀.id < m.id)) ∧
      m₀ ∈ st'.messages ∧
      (∀ m ∈ st.messages, (m.chatId = m₀.chatId → m.id ≤ m₀.id) →
        m ∈ st'.messages)) ∧
    ((∀ m ∈ st.messages, m.commitHash ≠ some pid) →
      st'.messages = st.messages) := by
  obtain ⟨app, repo, repo₁, rows, repo₂, evs, repo₃, repo₄, -, -, -, -, -,
    -, -, -, hst, -⟩ := revert_ok_inv env st appId pid r st' tr hRun
  subst hst
  constructor
  · intro m₀ hmem href huniq
    obtain ⟨-, -, hmsgs, -⟩ :=
      pruneMessages_found (setRepo st app.path repo₄) pid m₀ hmem href huniq
    refine ⟨hmsgs, ?_, ?_⟩
    · rw [hmsgs]
      exact List.mem_filter.mpr ⟨hmem, by simp⟩
    · intro m hm hle
      rw [hmsgs]
      refine List.mem_filter.mpr ⟨hm, ?_⟩
      by_cases hc : m.chatId = m₀.chatId
      · have hlt : ¬ (m₀.id < m.id) := not_lt.mpr (hle hc)
        simp [hc, hlt]
      · simp [hc]
  · intro hnone
    have h := pruneMessages_none (setRepo st app.path repo₄) pid hnone
    rw [h]
    rfl

theorem revertRow_events_shape (env : GitFaults) (repo : Repo)
    (ref : String) (row : String × Nat × Nat × Nat) (r₂ : Repo)
    (evs : List Event) (h : revertRow env repo ref row = Except.ok (r₂, evs)) :
    ∀ e ∈ evs, (∃ p c, e = Event.write p c) ∨ (∃ p, e = Event.unlink p) ∨
      (∃ p, e = Event.gitRm p) := by
  unfold revertRow at h
  split at h
  · split at h
    · split at h
      · exact absurd h (by simp)
      · simp only [Except.ok.injEq, Prod.mk.injEq] at h
        obtain ⟨-, h2⟩ := h
        subst h2
        intro e he
        rw [List.mem_singleton] at he
        subst he
        exact Or.inl ⟨row.1, _, rfl⟩
    · simp only [Except.ok.injEq, Prod.mk.injEq] at h
      obtain ⟨-, h2⟩ := h
      subst h2
      intro e he
      exact absurd he (by simp)
  · split at h
    · split at h
      · simp only [Except.ok.injEq, Prod.mk.injEq] at h
        obtain ⟨-, h2⟩ := h
        subst h2
        intro e he
        rcases List.mem_cons.mp he with he | he
        · subst he
          exact Or.inr (Or.inl ⟨row.1, rfl⟩)
        · rw [List.mem_singleton] at he
          subst he
          exact Or.inr (Or.inr ⟨row.1, rfl⟩)
      · simp only [Except.ok.injEq, Prod.mk.injEq] at h
        obtain ⟨-, h2⟩ := h
        subst h2
        intro e he
        exact absurd he (by simp)
    · simp only [Except.ok.injEq, Prod.mk.injEq] at h
      obtain ⟨-, h2⟩ := h
      subst h2
      intro e he
      exact absurd he (by simp)

theorem revertRows_events_shape (env : GitFaults) (ref : String) :
    ∀ (rows : List (String × Nat × Nat × Nat)) (repo : Repo)
      (res : Option String) (repo₂ : Repo) (evs : List Event),
    revertRows env ref repo rows = (res, repo₂, evs) →
    ∀ e ∈ evs, (∃ p c, e = Event.write p c) ∨ (∃ p, e = Event.unlink p) ∨
      (∃ p, e = Event.gitRm p) := by
  intro rows
  induction rows with
  | nil =>
    intro repo res repo₂ evs h
    unfold revertRows at h
    simp only [Prod.mk.injEq] at h
    obtain ⟨-, -, h3⟩ := h
    subst h3
    intro e he
    exact absurd he (by simp)
  | cons row rest ih =>
    intro repo res repo₂ evs h
    unfold revertRows at h
    cases hrr : revertRow env repo ref row with
    | error m =>
      rw [hrr] at h
      simp only [Prod.mk.injEq] at h
      obtain ⟨-, -, h3⟩ := h
      subst h3
      intro e he
      exact absurd he (by simp)
    | ok pr =>
      obtain ⟨r₂, evs₁⟩ := pr
      rw [hrr] at h
      dsimp only at h
      rcases hrest : revertRows env ref r₂ rest with ⟨res3, r3, evs3⟩
      rw [hrest] at h
      simp only [Prod.mk.injEq] at h
      obtain ⟨-, -, h3⟩ := h
      subst h3
      intro e he
      rcases List.mem_append.mp he with he | he
      · exact revertRow_events_shape env repo ref row r₂ evs₁ hrr e he
      · exact ih r₂ res3 r3 evs3 hrest e he

/-- C5-amended: a successful revert returns the bare success object (no
count field) to the caller; the prune step computes the number of later
entries in the referencing chat and logs that count when a referencing
entry exists, and logs nothing at all when no entry references the
target. -/
theorem revert_success_logs_prune_count (env : GitFaults) (st : AppState)
    (appId : Nat) (pid : String) (r : OpResult) (st' : AppState)
    (tr : List Event)
    (hRun : revertVersion env st appId pid = (Except.ok r, st', tr)) :
    r = OpResult.mk true ∧
    (∀ m₀, m₀ ∈ st.messages → m₀.commitHash = some pid →
      (∀ m ∈ st.messages, m.commitHash = some pid → m = m₀) →
      Event.logPrune ((st.messages.filter
        (fun m => m.chatId == m₀.chatId && m₀.id < m.id)).length) ∈ tr) ∧
    ((∀ m ∈ st.messages, m.commitHash ≠ some pid) →
      ∀ n, Event.logPrune n ∉ tr) := by
  obtain ⟨app, repo, repo₁, rows, repo₂, evs, repo₃, repo₄, -, -, -, -,
    hrows, -, -, hr, hst, htr⟩ := revert_ok_inv env st appId pid r st' tr hRun
  refine ⟨hr, ?_, ?_⟩
  · intro m₀ hmem href huniq
    obtain ⟨-, -, -, hprevs⟩ :=
      pruneMessages_found (setRepo st app.path repo₄) pid m₀ hmem href huniq
    subst htr
    rw [hprevs]
    exact List.mem_cons_of_mem _ (List.mem_cons_of_mem _
      (List.mem_append.mpr (Or.inr (List.mem_singleton.mpr rfl))))
  · intro hnone n
    have h := pruneMessages_none (setRepo st app.path repo₄) pid hnone
    subst htr
    rw [h]
    intro hcontra
    rcases List.mem_cons.mp hcontra with h1 | h1
    · exact absurd h1 (by simp)
    rcases List.mem_cons.mp h1 with h2 | h2
    · exact absurd h2 (by simp)
    rcases List.mem_append.mp h2 with h3 | h3
    · rcases List.mem_append.mp h3 with h4 | h4
      · rcases revertRows_events_shape env pid rows repo₁ none repo₂ evs hrows
          _ h4 with ⟨p, c, he⟩ | ⟨p, he⟩ | ⟨p, he⟩
        · exact absurd he (by simp)
        · exact absurd he (by simp)
        · exact absurd he (by simp)
      · exact absurd h4 (by simp)
    · exact absurd h3 (by simp)

/-- C7: every revert on a registered app with a history store begins with
a force-checkout of the branch named "main" before any status
computation or file mutation (the checkout is the first event of the
trace), and a successful revert leaves HEAD attached to "main" with the
newly created commit as the tip of that ref. -/
theorem revert_checkout_main_first (env : GitFaults) (st : AppState)
    (appId : Nat) (pid : String) (app : App) (repo : Repo)
    (hApp : findApp st appId = some app)
    (hRepo : getRepo st app.path = some repo)
    (hMain : (repo.refs.lookup "main").isSome) :
    (∃ rest, (revertVersion env st appId pid).2.2
      = Event.checkout "main" true :: rest) ∧
    (∀ r st' tr, revertVersion env st appId pid = (Except.ok r, st', tr) →
      ∃ repoF cNew crest, getRepo st' app.path = some repoF ∧
        repoF.branch = some "main" ∧
        repoF.commits = cNew :: crest ∧
        repoF.refs.lookup "main" = some cNew.oid) := by
  constructor
  · unfold revertVersion
    rw [hApp]
    dsimp only
    rw [hRepo]
    dsimp only
    cases gitCheckout env repo "main" with
    | error m => exact ⟨[], rfl⟩
    | ok repo₁ =>
      dsimp only
      cases gitStatusMatrix env repo₁ pid with
      | error m => exact ⟨[Event.status pid], rfl⟩
      | ok rows =>
        dsimp only
        rcases revertRows env pid repo₁ rows with ⟨res, repo₂, evs⟩
        cases res with
        | some m => exact ⟨Event.status pid :: evs, rfl⟩
        | none =>
          dsimp only
          cases gitAdd env repo₂ with
          | error m => exact ⟨Event.status pid :: evs, rfl⟩
          | ok repo₃ =>
            dsimp only
            cases gitCommit env repo₃ (revertMessage pid) with
            | error m => exact ⟨Event.status pid :: evs ++ [Event.addAll], rfl⟩
            | ok repo₄ =>
              dsimp only
              rcases pruneMessages (setRepo st app.path repo₄) pid with
                ⟨st₂, prEvs⟩
              exact ⟨Event.status pid :: evs ++
                [Event.addAll, Event.commitEv (revertMessage pid)] ++ prEvs,
                rfl⟩
  · intro r st' tr hRun
    obtain ⟨app', repo', repo₁, rows, repo₂, evs, repo₃, repo₄, happ, hrepo,
      hchk, hsm, hrows, hadd, hcom, -, hst, -⟩ :=
      revert_ok_inv env st appId pid r st' tr hRun
    have ha : app = app' := Option.some.inj (hApp.symm.trans happ)
    subst ha
    have hr : repo = repo' := Option.some.inj (hRepo.symm.trans hrepo)
    subst hr
    obtain ⟨-, hrefs₁, -, hbr₁⟩ := gitCheckout_ok env repo "main" repo₁ hchk
    obtain ⟨t, ht, hrowseq⟩ := gitStatusMatrix_ok env repo₁ pid rows hsm
    subst hrowseq
    obtain ⟨-, -, hb₂, -, -⟩ :=
      revertRows_ok_spec env pid (statusRows t repo₁) repo₁ repo₂ evs
        (statusRows_fst_nodup t repo₁) hrows
    have hadd' := gitAdd_ok env repo₂ repo₃ hadd
    obtain ⟨c, -, -, hcc, -, -, hcb, hcrefs⟩ :=
      gitCommit_ok env repo₃ (revertMessage pid) repo₄ hcom
    have hb₃ : repo₃.branch = some "main" := by
      rw [hadd']
      show repo₂.branch = some "main"
      rw [hb₂]
      exact hbr₁ hMain
    refine ⟨repo₄, c, repo₃.commits, ?_, ?_, hcc, ?_⟩
    · subst hst
      show (pruneMessages (setRepo st app.path repo₄) pid).1.repos app.path
        = some repo₄
      rw [(pruneMessages_frame (setRepo st app.path repo₄) pid).2]
      exact getRepo_setRepo_self st app.path repo₄
    · rw [hcb]
      exact hb₃
    · rw [hcrefs "main" hb₃]
      simp [List.lookup]

/-- C3: for a project present in the registry, `list-versions` returns an
empty list (without raising) when the directory has no history store,
and raises only when the store is present but the underlying history
read fails. -/
theorem listVersions_no_store_empty (env : GitFaults) (st : AppState)
    (appId : Nat) (app : App) (hApp : findApp st appId = some app) :
    (getRepo st app.path = none → listVersions env st appId = Except.ok []) ∧
    (∀ e, listVersions env st appId = Except.error e →
      (getRepo st app.path).isSome ∧ env.logErr.isSome) := by
  constructor
  · intro h
    unfold listVersions
    rw [hApp]
    dsimp only
    rw [h]
  · intro e he
    unfold listVersions at he
    rw [hApp] at he
    dsimp only at he
    cases hr : getRepo st app.path with
    | none => rw [hr] at he; simp at he
    | some repo =>
      rw [hr] at he
      dsimp only at he
      refine ⟨by simp, ?_⟩
      unfold gitLog at he
      cases hl : env.logErr with
      | none => rw [hl] at he; simp at he
      | some m => simp

theorem failedBranch_ne_appNotFound (m : String) :
    "Failed to get current branch: " ++ m ≠ "App not found" := by
  intro h
  have h3 := congrArg (fun s => s.data.head?) h
  simp at h3

theorem failedBranch_ne_notGitRepo (m : String) :
    "Failed to get current branch: " ++ m ≠ "Not a git repository" := by
  intro h
  have h3 := congrArg (fun s => s.data.head?) h
  simp at h3

/-- C4: `get-current-branch` is a total function into the structured
`BranchResult` (it never raises), with a distinct human-readable failure
message for each of the three failure cases — unknown app, no history
store, underlying branch read failure — and a success carrying the
branch name otherwise. -/
theorem currentBranch_structured_cases (env : GitFaults) (st : AppState)
    (appId : Nat) :
    (findApp st appId = none →
      getCurrentBranch env st appId = BranchResult.failure "App not found") ∧
    (∀ app, findApp st appId = some app → getRepo st app.path = none →
      getCurrentBranch env st appId
        = BranchResult.failure "Not a git repository") ∧
    (∀ app repo m, findApp st appId = some app →
      getRepo st app.path = some repo → env.branchErr = some m →
      getCurrentBranch env st appId
        = BranchResult.failure ("Failed to get current branch: " ++ m)) ∧
    (∀ app repo, findApp st appId = some app →
      getRepo st app.path = some repo → env.branchErr = none →
      ∃ b, getCurrentBranch env st appId = BranchResult.success b) ∧
    ("App not found" ≠ "Not a git repository") ∧
    (∀ m, "Failed to get current branch: " ++ m ≠ "App not found") ∧
    (∀ m, "Failed to get current branch: " ++ m ≠ "Not a git repository") := by
  refine ⟨?_, ?_, ?_, ?_, by decide, failedBranch_ne_appNotFound,
    failedBranch_ne_notGitRepo⟩
  · intro h
    unfold getCurrentBranch
    rw [h]
  · intro app h1 h2
    unfold getCurrentBranch
    rw [h1]
    dsimp only
    rw [h2]
  · intro app repo m h1 h2 h3
    unfold getCurrentBranch
    rw [h1]
    dsimp only
    rw [h2]
    dsimp only
    unfold gitCurrentBranch
    rw [h3]
  · intro app repo h1 h2 h3
    unfold getCurrentBranch
    rw [h1]
    dsimp only
    rw [h2]
    dsimp only
    unfold gitCurrentBranch
    rw [h3]
    dsimp only
    exact ⟨_, rfl⟩

/-- C10: when the project is registered, has a history store, and the
underlying branch lookup succeeds but yields no branch name (detached
state), `get-current-branch` returns a success whose branch field is the
literal sentinel string "<no-branch>". -/
theorem currentBranch_detached_sentinel (env : GitFaults) (st : AppState)
    (appId : Nat) (app : App) (repo : Repo)
    (hApp : findApp st appId = some app)
    (hRepo : getRepo st app.path = some repo)
    (hDet : repo.branch = none)
    (hOk : env.branchErr = none) :
    getCurrentBranch env st appId = BranchResult.success "<no-branch>" := by
  unfold getCurrentBranch
  rw [hApp]
  dsimp only
  rw [hRepo]
  dsimp only
  unfold gitCurrentBranch
  rw [hOk]
  dsimp only
  rw [hDet]

/-- C8: the checkout operation only moves the working tree: it creates no
snapshot and deletes none (every repository's commit store is unchanged)
and deletes no timeline entry (the messages table is unchanged), for
every project, target snapshot and fault environment. -/
theorem checkout_preserves_history_and_timeline (env : GitFaults)
    (st : AppState) (appId : Nat) (vid : String) :
    (∀ p, ((checkoutVersion env st appId vid).2.1.repos p).map
        (fun rp => rp.commits) = (st.repos p).map (fun rp => rp.commits)) ∧
    (checkoutVersion env st appId vid).2.1.messages = st.messages := by
  unfold checkoutVersion
  cases findApp st appId with
  | none => exact ⟨fun p => rfl, rfl⟩
  | some app =>
    dsimp only
    cases hr : getRepo st app.path with
    | none => exact ⟨fun p => rfl, rfl⟩
    | some repo =>
      dsimp only
      cases hc : gitCheckout env repo vid with
      | error m => exact ⟨fun p => rfl, rfl⟩
      | ok r =>
        dsimp only
        obtain ⟨hcc, -, -, -⟩ := gitCheckout_ok env repo vid r hc
        refine ⟨?_, rfl⟩
        intro p
        have hr2 : st.repos app.path = some repo := hr
        by_cases hp : p = app.path
        · subst hp
          show ((if app.path = app.path then some r else st.repos app.path).map
            (fun rp => rp.commits))
            = (st.repos app.path).map (fun rp => rp.commits)
          rw [if_pos rfl, hr2]
          simp [hcc]
        · show ((if p = app.path then some r else st.repos p).map
            (fun rp => rp.commits)) = (st.repos p).map (fun rp => rp.commits)
          rw [if_neg hp]

/-- Target snapshot of the concrete successful-revert scenario. -/
def snapV1 : Snapshot :=
  ⟨"v1", "first commit", 10, [("a.txt", [1, 2]), ("d.txt", [4])]⟩

/-- Tip of "main" in the concrete successful-revert scenario. -/
def snapV2 : Snapshot :=
  ⟨"v2", "second commit", 20, [("a.txt", [1, 2]), ("b.txt", [3])]⟩

/-- Repository of the concrete successful-revert scenario. -/
def repoW : Repo :=
  ⟨[snapV2, snapV1], [("main", "v2")], some "main",
    [("a.txt", [1, 2]), ("b.txt", [3])], [("a.txt", [1, 2]), ("b.txt", [3])]⟩

/-- Timeline of the concrete scenario: stream 7 holds entries 1..5 and
entry 3 references snapshot "v1". -/
def msgsW : List Msg :=
  [⟨1, 7, none⟩, ⟨2, 7, none⟩, ⟨3, 7, some "v1"⟩, ⟨4, 7, none⟩,
    ⟨5, 7, none⟩]

/-- State of the concrete successful-revert scenario. -/
def stW : AppState :=
  ⟨[⟨1, "proj"⟩], fun q => if q = "proj" then some repoW else none, msgsW⟩

/-- Same state but with no timeline entry referencing "v1". -/
def stB : AppState :=
  ⟨[⟨1, "proj"⟩], fun q => if q = "proj" then some repoW else none,
    [⟨1, 7, none⟩, ⟨2, 7, none⟩]⟩

/-- Target snapshot of the failing-revert scenario: three files, two of
which need restoring. -/
def snapC1 : Snapshot :=
  ⟨"v1", "first", 10, [("a.txt", [1]), ("d.txt", [4]), ("e.txt", [5])]⟩

/-- Tip of "main" in the failing-revert scenario. -/
def snapC2 : Snapshot :=
  ⟨"v2", "second", 20, [("a.txt", [1]), ("b.txt", [3])]⟩

/-- Repository of the failing-revert scenario. -/
def repoC : Repo :=
  ⟨[snapC2, snapC1], [("main", "v2")], some "main",
    [("a.txt", [1]), ("b.txt", [3])], [("a.txt", [1]), ("b.txt", [3])]⟩

/-- State of the failing-revert scenario. -/
def stC : AppState :=
  ⟨[⟨1, "p1"⟩], fun q => if q = "p1" then some repoC else none, []⟩

/-- Fault environment: reading the blob of "e.txt" fails. -/
def envReadFail : GitFaults :=
  ⟨none, none, none, none, some ("e.txt", "disk read failed"), none, none⟩

/-- Fault environment: the force-checkout fails with "boom". -/
def envChkFail : GitFaults :=
  ⟨none, none, some "boom", none, none, none, none⟩

/-- C5-counterexample: two successful reverts — one whose prune removes
two timeline entries (stream [1,2,3,4,5] with entry 3 referencing "v1")
and one whose prune removes none — return the identical bare success
value to the caller, so the caller does not receive the count of removed
entries; the count 2 appears only as a logged event. -/
theorem revert_result_carries_no_count :
    (revertVersion noFaults stW 1 "v1").1 = Except.ok ⟨true⟩ ∧
    (revertVersion noFaults stW 1 "v1").2.1.messages.length = 3 ∧
    stW.messages.length = 5 ∧
    Event.logPrune 2 ∈ (revertVersion noFaults stW 1 "v1").2.2 ∧
    (revertVersion noFaults stB 1 "v1").1 = Except.ok ⟨true⟩ ∧
    (revertVersion noFaults stB 1 "v1").2.1.messages = stB.messages ∧
    (revertVersion noFaults stW 1 "v1").1
      = (revertVersion noFaults stB 1 "v1").1 :=
  ⟨rfl, by decide, by decide, by decide, rfl, by decide, rfl⟩

/-- C6-amended: whenever a step inside the revert's try-block fails
(for any registered app), the operation aborts with an error of the
form "Failed to revert version: " ++ cause — carrying the underlying
cause — and no rollback of already-written files is attempted: in the
concrete scenario the blob read of "e.txt" fails after "d.txt" was
already restored, the operation reports the failure, and "d.txt" keeps
the target's bytes even though it was absent before the revert. -/
theorem revert_failure_aborts_with_cause :
    (∀ env st appId pid e st' tr app,
      findApp st appId = some app →
      revertVersion env st appId pid = (Except.error e, st', tr) →
      ∃ c, e = "Failed to revert version: " ++ c) ∧
    ((revertVersion envReadFail stC 1 "v1").1
      = Except.error ("Failed to revert version: " ++ "disk read failed") ∧
    ((revertVersion envReadFail stC 1 "v1").2.1.repos "p1").map
      (fun rp => rp.workdir.lookup "d.txt") = some (some [4]) ∧
    repoC.workdir.lookup "d.txt" = none) := by
  constructor
  · intro env st appId pid e st' tr app hApp hRun
    unfold revertVersion at hRun
    rw [hApp] at hRun
    dsimp only at hRun
    cases hr : getRepo st app.path with
    | none =>
      rw [hr] at hRun
      dsimp only at hRun
      simp only [Prod.mk.injEq, Except.error.injEq] at hRun
      exact ⟨_, hRun.1.symm⟩
    | some repo =>
      rw [hr] at hRun
      dsimp only at hRun
      cases hchk : gitCheckout env repo "main" with
      | error m =>
        rw [hchk] at hRun
        dsimp only at hRun
        simp only [Prod.mk.injEq, Except.error.injEq] at hRun
        exact ⟨_, hRun.1.symm⟩
      | ok repo₁ =>
        rw [hchk] at hRun
        dsimp only at hRun
        cases hsm : gitStatusMatrix env repo₁ pid with
        | error m =>
          rw [hsm] at hRun
          dsimp only at hRun
          simp only [Prod.mk.injEq, Except.error.injEq] at hRun
          exact ⟨_, hRun.1.symm⟩
        | ok rows =>
          rw [hsm] at hRun
          dsimp only at hRun
          rcases hrows : revertRows env pid repo₁ rows with ⟨res, repo₂, evs⟩
          rw [hrows] at hRun
          cases res with
          | some m =>
            dsimp only at hRun
            simp only [Prod.mk.injEq, Except.error.injEq] at hRun
            exact ⟨_, hRun.1.symm⟩
          | none =>
            dsimp only at hRun
            cases hadd : gitAdd env repo₂ with
            | error m =>
              rw [hadd] at hRun
              dsimp only at hRun
              simp only [Prod.mk.injEq, Except.error.injEq] at hRun
              exact ⟨_, hRun.1.symm⟩
            | ok repo₃ =>
              rw [hadd] at hRun
              dsimp only at hRun
              cases hcom : gitCommit env repo₃ (revertMessage pid) with
              | error m =>
                rw [hcom] at hRun
                dsimp only at hRun
                simp only [Prod.mk.injEq, Except.error.injEq] at hRun
                exact ⟨_, hRun.1.symm⟩
              | ok repo₄ =>
                rw [hcom] at hRun
                dsimp only at hRun
                rcases hpr : pruneMessages (setRepo st app.path repo₄) pid
                  with ⟨st₂, prEvs⟩
                rw [hpr] at hRun
                dsimp only at hRun
                simp at hRun
  · exact ⟨rfl, rfl, rfl⟩

/-- C6-counterexample: at a concrete failing revert targeting snapshot
"v1" the raised error message is exactly "Failed to revert version:
boom"; the target identifier "v1" does not occur anywhere in that
message, refuting the claim that the raised error carries both the
target identifier and the cause. -/
theorem revert_error_lacks_target_id :
    (revertVersion envChkFail stC 1 "v1").1
      = Except.error "Failed to revert version: boom" ∧
    ¬ ("v1".data <:+: "Failed to revert version: boom".data) :=
  ⟨rfl, by decide⟩

/-- Modelled from the spec: one action of the per-project
mutual-exclusion gate `withLock` of `src/ipc/utils/lock_utils.ts` (whose
source is not included): acquiring the lock keyed by project `p`,
running one step of the guarded body, or releasing the lock. -/
inductive LockAct where
  | acquire (p : Nat)
  | body (p : Nat) (k : Nat)
  | release (p : Nat)
  deriving Repr, DecidableEq

/-- One scheduled step: which operation performs which lock action. -/
structure LStep where
  op : Nat
  act : LockAct
  deriving Repr, DecidableEq

/-- Modelled from the spec: the step sequence of one revert-version or
checkout-version call by operation `o` on project `p` —
`withLock(appId, body)` wraps the `n`-step handler body between an
acquire and a release of the lock keyed by the project identifier
(source lines 110 and 241). -/
def withLockScript (o p n : Nat) : List LStep :=
  ⟨o, LockAct.acquire p⟩ ::
    ((List.range n).map (fun k => ⟨o, LockAct.body p k⟩) ++
      [⟨o, LockAct.release p⟩])

/-- Advance the lock-ownership table by one step; `none` when the step
cannot fire now (acquiring a held lock, or acting on a lock the
operation does not hold). -/
def lockStep (ow : Nat → Option Nat) (s : LStep) :
    Option (Nat → Option Nat) :=
  match s.act with
  | LockAct.acquire p =>
    match ow p with
    | none => some (fun r => if r = p then some s.op else ow r)
    | some _ => none
  | LockAct.body p _ => if ow p = some s.op then some ow else none
  | LockAct.release p =>
    if ow p = some s.op then some (fun r => if r = p then none else ow r)
    else none

/-- Run a whole schedule from an ownership table. -/
def lockRun : (Nat → Option Nat) → List LStep → Option (Nat → Option Nat)
  | ow, [] => some ow
  | ow, s :: rest =>
    match lockStep ow s with
    | none => none
    | some ow₂ => lockRun ow₂ rest

/-- A schedule the lock semantics can actually execute, starting with
every lock free. -/
def LockValid (t : List LStep) : Prop :=
  (lockRun (fun _ => none) t).isSome = true

/-- `Interleaving as bs t`: `t` merges `as` and `bs`, keeping the
relative order of each. -/
inductive Interleaving : List LStep → List LStep → List LStep → Prop where
  | nil : Interleaving [] [] []
  | left : ∀ {a as bs t}, Interleaving as bs t →
      Interleaving (a :: as) bs (a :: t)
  | right : ∀ {b as bs t}, Interleaving as bs t →
      Interleaving as (b :: bs) (b :: t)

theorem Interleaving.nil_left : ∀ {bs t : List LStep},
    Interleaving [] bs t → t = bs := by
  intro bs t h
  generalize hn : ([] : List LStep) = e at h
  induction h with
  | nil => rfl
  | left h ih => exact absurd hn (by simp)
  | right h ih => rw [ih hn]

theorem Interleaving.swap : ∀ {as bs t : List LStep},
    Interleaving as bs t → Interleaving bs as t := by
  intro as bs t h
  induction h with
  | nil => exact Interleaving.nil
  | left h ih => exact Interleaving.right ih
  | right h ih => exact Interleaving.left ih

theorem lockRun_holder_first (o p : Nat) :
    ∀ (ks : List Nat) (o₂ : Nat) (s₂' : List LStep) (t : List LStep)
      (ow : Nat → Option Nat),
    ow p = some o →
    Interleaving ((ks.map (fun k => ⟨o, LockAct.body p k⟩))
      ++ [⟨o, LockAct.release p⟩]) (⟨o₂, LockAct.acquire p⟩ :: s₂') t →
    (lockRun ow t).isSome = true →
    t = ((ks.map (fun k => ⟨o, LockAct.body p k⟩))
      ++ [⟨o, LockAct.release p⟩]) ++ (⟨o₂, LockAct.acquire p⟩ :: s₂') := by
  intro ks
  induction ks with
  | nil =>
    intro o₂ s₂' t ow how hI hv
    simp only [List.map_nil, List.nil_append] at hI ⊢
    cases hI with
    | left hI' =>
      rw [Interleaving.nil_left hI']
      rfl
    | right hI' =>
      exfalso
      simp only [lockRun, lockStep, how] at hv
      simp at hv
  | cons k ks ih =>
    intro o₂ s₂' t ow how hI hv
    simp only [List.map_cons, List.cons_append] at hI ⊢
    cases hI with
    | left hI' =>
      rename_i t'
      have hv' : (lockRun ow t').isSome = true := by
        simp only [lockRun, lockStep, how] at hv
        simpa using hv
      rw [ih o₂ s₂' t' ow how hI' hv']
    | right hI' =>
      exfalso
      simp only [lockRun, lockStep, how] at hv
      simp at hv

/-- C9: the revert and checkout handler bodies run entirely inside the
per-project lock keyed by the project identifier (their step sequence is
`withLockScript`).  Any schedule the lock semantics admits for two such
operations on the same project is one complete operation followed by the
other — the second observes the fully completed first, with no
interleaving of their bodies — while two operations on different
projects admit a fully interleaved valid schedule and so proceed
concurrently. -/
theorem withLock_serializes_per_project (o₁ o₂ p q n₁ n₂ : Nat) :
    (∀ t, Interleaving (withLockScript o₁ p n₁) (withLockScript o₂ p n₂) t →
      LockValid t →
      t = withLockScript o₁ p n₁ ++ withLockScript o₂ p n₂ ∨
      t = withLockScript o₂ p n₂ ++ withLockScript o₁ p n₁) ∧
    (p ≠ q →
      ∃ t, Interleaving (withLockScript o₁ p 1) (withLockScript o₂ q 1) t ∧
        LockValid t ∧
        t ≠ withLockScript o₁ p 1 ++ withLockScript o₂ q 1 ∧
        t ≠ withLockScript o₂ q 1 ++ withLockScript o₁ p 1) := by
  constructor
  · intro t hI hv
    unfold withLockScript at hI
    cases hI with
    | left hI' =>
      rename_i t'
      left
      have hv' : (lockRun
          (fun r => if r = p then some o₁ else none) t').isSome = true := by
        unfold LockValid at hv
        simp only [lockRun, lockStep] at hv
        simpa using hv
      have ht' := lockRun_holder_first o₁ p (List.range n₁) o₂ _ t'
        (fun r => if r = p then some o₁ else none) (by simp) hI' hv'
      rw [ht']
      simp [withLockScript, List.cons_append]
    | right hI' =>
      rename_i t'
      right
      have hv' : (lockRun
          (fun r => if r = p then some o₂ else none) t').isSome = true := by
        unfold LockValid at hv
        simp only [lockRun, lockStep] at hv
        simpa using hv
      have ht' := lockRun_holder_first o₂ p (List.range n₂) o₁ _ t'
        (fun r => if r = p then some o₂ else none) (by simp)
        (Interleaving.swap hI') hv'
      rw [ht']
      simp [withLockScript, List.cons_append]
  · intro hpq
    have hqp : q ≠ p := Ne.symm hpq
    have hs₁ : withLockScript o₁ p 1 = [⟨o₁, LockAct.acquire p⟩,
      ⟨o₁, LockAct.body p 0⟩, ⟨o₁, LockAct.release p⟩] := rfl
    have hs₂ : withLockScript o₂ q 1 = [⟨o₂, LockAct.acquire q⟩,
      ⟨o₂, LockAct.body q 0⟩, ⟨o₂, LockAct.release q⟩] := rfl
    refine ⟨[⟨o₁, LockAct.acquire p⟩, ⟨o₂, LockAct.acquire q⟩,
      ⟨o₁, LockAct.body p 0⟩, ⟨o₂, LockAct.body q 0⟩,
      ⟨o₁, LockAct.release p⟩, ⟨o₂, LockAct.release q⟩], ?_, ?_, ?_, ?_⟩
    · rw [hs₁, hs₂]
      exact Interleaving.left (Interleaving.right (Interleaving.left
        (Interleaving.right (Interleaving.left (Interleaving.right
          Interleaving.nil)))))
    · unfold LockValid
      simp [lockRun, lockStep, hpq, hqp]
    · rw [hs₁, hs₂]
      intro h
      simp at h
    · rw [hs₁, hs₂]
      intro h
      simp [hpq] at h

/-- The concrete successful revert used by the witnesses. -/
def runW : Except String OpResult × AppState × List Event :=
  revertVersion noFaults stW 1 "v1"

theorem runW_eq : revertVersion noFaults stW 1 "v1"
    = (Except.ok ⟨true⟩, runW.2.1, runW.2.2) := by
  have h1 : runW.1 = Except.ok ⟨true⟩ := rfl
  calc revertVersion noFaults stW 1 "v1"
      = (runW.1, runW.2.1, runW.2.2) := rfl
    _ = (Except.ok ⟨true⟩, runW.2.1, runW.2.2) := by rw [h1]

/-- The concrete failing revert used by the witnesses. -/
def runC : Except String OpResult × AppState × List Event :=
  revertVersion envReadFail stC 1 "v1"

theorem runC_eq : revertVersion envReadFail stC 1 "v1"
    = (Except.error "Failed to revert version: disk read failed",
       runC.2.1, runC.2.2) := by
  have h1 : runC.1
      = Except.error "Failed to revert version: disk read failed" := rfl
  calc revertVersion envReadFail stC 1 "v1"
      = (runC.1, runC.2.1, runC.2.2) := rfl
    _ = (Except.error "Failed to revert version: disk read failed",
        runC.2.1, runC.2.2) := by rw [h1]

/-- Witness for C1: the concrete successful revert reconciles every row
of its status comparison. -/
theorem revert_reconciles_workdir_witness :
    ∃ repoF, getRepo runW.2.1 "proj" = some repoF ∧
      ∀ row ∈ statusRows snapV1 repoW,
        (row.2.1 = 1 → row.2.2.1 ≠ 1 →
          repoF.workdir.lookup row.1 = snapV1.files.lookup row.1) ∧
        (row.2.1 = 0 → row.2.2.1 ≠ 0 →
          repoF.workdir.lookup row.1 = none ∧
            repoF.stage.lookup row.1 = none) :=
  revert_reconciles_workdir noFaults stW 1 "v1" ⟨1, "proj"⟩ repoW repoW
    snapV1 ⟨true⟩ runW.2.1 runW.2.2 rfl rfl rfl rfl runW_eq

/-- Witness for C2: in the concrete scenario the surviving timeline is
exactly the filter keeping entries not after entry 3 of stream 7. -/
theorem revert_prunes_timeline_witness :
    runW.2.1.messages = stW.messages.filter
      (fun m => !(m.chatId == (⟨3, 7, some "v1"⟩ : Msg).chatId
        && (⟨3, 7, some "v1"⟩ : Msg).id < m.id)) :=
  ((revert_prunes_timeline noFaults stW 1 "v1" ⟨true⟩ runW.2.1 runW.2.2
    runW_eq).1 ⟨3, 7, some "v1"⟩ (by decide) (by decide) (by decide)).1

/-- Registry state with an app whose directory has no history store. -/
def stN : AppState := ⟨[⟨2, "bare"⟩], fun _ => none, []⟩

/-- Witness for C3: listing versions of a registered app with no history
store yields the empty list. -/
theorem listVersions_no_store_empty_witness :
    listVersions noFaults stN 2 = Except.ok [] :=
  (listVersions_no_store_empty noFaults stN 2 ⟨2, "bare"⟩ rfl).1 rfl

/-- Witness for C4: the unknown-app and no-store failure cases at
concrete inputs. -/
theorem currentBranch_structured_cases_witness :
    getCurrentBranch noFaults stN 99 = BranchResult.failure "App not found" ∧
    getCurrentBranch noFaults stN 2
      = BranchResult.failure "Not a git repository" :=
  ⟨(currentBranch_structured_cases noFaults stN 99).1 rfl,
    (currentBranch_structured_cases noFaults stN 2).2.1 ⟨2, "bare"⟩ rfl rfl⟩

/-- Witness for C5-amended: the concrete revert logs the prune count 2. -/
theorem revert_success_logs_prune_count_witness :
    Event.logPrune 2 ∈ runW.2.2 := by
  have h := (revert_success_logs_prune_count noFaults stW 1 "v1" ⟨true⟩
    runW.2.1 runW.2.2 runW_eq).2.1 ⟨3, 7, some "v1"⟩ (by decide) (by decide)
    (by decide)
  exact h

/-- Witness for C6-amended: the concrete failing revert's error message
splits into the fixed prefix and the underlying cause. -/
theorem revert_failure_aborts_with_cause_witness :
    ∃ c, "Failed to revert version: disk read failed"
      = "Failed to revert version: " ++ c :=
  (revert_failure_aborts_with_cause).1 envReadFail stC 1 "v1"
    "Failed to revert version: disk read failed" runC.2.1 runC.2.2
    ⟨1, "p1"⟩ rfl runC_eq

/-- Witness for C7: the concrete revert's trace starts with the forced
checkout of "main" and its new commit sits on the "main" ref. -/
theorem revert_checkout_main_first_witness :
    (∃ rest, runW.2.2 = Event.checkout "main" true :: rest) ∧
    (∃ repoF cNew crest, getRepo runW.2.1 "proj" = some repoF ∧
      repoF.branch = some "main" ∧ repoF.commits = cNew :: crest ∧
      repoF.refs.lookup "main" = some cNew.oid) := by
  have h := revert_checkout_main_first noFaults stW 1 "v1" ⟨1, "proj"⟩ repoW
    rfl rfl (by decide)
  exact ⟨h.1, h.2 ⟨true⟩ runW.2.1 runW.2.2 runW_eq⟩

/-- Witness for C9: two operations on the distinct projects 5 and 6
admit a fully interleaved valid schedule. -/
theorem withLock_serializes_per_project_witness :
    ∃ t, Interleaving (withLockScript 0 5 1) (withLockScript 1 6 1) t ∧
      LockValid t ∧
      t ≠ withLockScript 0 5 1 ++ withLockScript 1 6 1 ∧
      t ≠ withLockScript 1 6 1 ++ withLockScript 0 5 1 :=
  (withLock_serializes_per_project 0 1 5 6 1 1).2 (by decide)

/-- Repository in detached-HEAD state for the C10 witness. -/
def repoD : Repo :=
  ⟨[snapV2, snapV1], [("main", "v2")], none,
    [("a.txt", [1, 2]), ("b.txt", [3])], [("a.txt", [1, 2]), ("b.txt", [3])]⟩

/-- State with a detached-HEAD repository for the C10 witness. -/
def stD : AppState :=
  ⟨[⟨1, "proj"⟩], fun q => if q = "proj" then some repoD else none, []⟩

/-- Witness for C10: the detached concrete repository yields the
sentinel branch name. -/
theorem currentBranch_detached_sentinel_witness :
    getCurrentBranch noFaults stD 1 = BranchResult.success "<no-branch>" :=
  currentBranch_detached_sentinel noFaults stD 1 ⟨1, "proj"⟩ repoD
    rfl rfl rfl rfl
